import Mathlib

/-!
Verification of the Nomad-Weather-Map data fillers
(`scripts/fillManualAirFromOpenMeteo.py`, `scripts/fillManualClimateFromMeteostat.py`,
`scripts/fillManualMarineFromOpenMeteo.py`).

Numeric values are modelled by `ℚ` (the scripts manipulate Python floats; every
value appearing in the verified statements is exactly representable and no
operation used here is sensitive to binary rounding).  Python's `round(x, n)`
(banker's rounding, round-half-to-even) is modelled by `roundHalfEven` /
`roundTo`.  Python `None` is modelled by `Option.none`.
-/

namespace NWM

/-- Python's `round` to an integer: round half to even (banker's rounding). -/
def roundHalfEven (x : ℚ) : ℤ :=
  let f := ⌊x⌋
  let r := x - f
  if r < 1/2 then f
  else if 1/2 < r then f + 1
  else if f % 2 = 0 then f else f + 1

/-- Python's `round(x, p)`: scale by `10^p`, banker's-round, scale back. -/
def roundTo (p : ℕ) (x : ℚ) : ℚ := (roundHalfEven (x * 10 ^ p) : ℚ) / 10 ^ p

/-- `round_or_none(value, precision)` from the fillers: `None` passes through,
otherwise round to `precision` decimals. -/
def round_or_none (value : Option ℚ) (precision : ℕ) : Option ℚ :=
  value.map (roundTo precision)

/-- `clamp_or_none(value, minimum, maximum)` from the fillers: a value outside
`[minimum, maximum]` is discarded to `None`, not clipped. -/
def clamp_or_none (value : Option ℚ) (minimum maximum : ℚ) : Option ℚ :=
  match value with
  | none => none
  | some v => if v < minimum ∨ maximum < v then none else some v

/-- A raw JSON value handed to `to_float`.  A numeric string is carried
together with the number `float(s)` parses it to (`strNum`), a string that
`float` rejects with `ValueError` is `strErr`, and list/dict inputs (for which
`float` raises `TypeError`) are `other`. -/
inductive RawValue where
  | null
  | boolean (b : Bool)
  | num (q : ℚ)
  | strNum (q : ℚ)
  | strErr
  | other
deriving DecidableEq

/-- `to_float` from `fillManualAirFromOpenMeteo.py` (lines 127-138); the same
function appears verbatim in `fillManualMarineFromOpenMeteo.py` (lines
114-125).  `None` and `bool` inputs are rejected, then `float(value)` is
attempted, then values `<= -900` (the upstream no-data sentinel) are
rejected. -/
def to_float : RawValue → Option ℚ
  | .null => none
  | .boolean _ => none
  | .num q => if q ≤ -900 then none else some q
  | .strNum q => if q ≤ -900 then none else some q
  | .strErr => none
  | .other => none

/-- One field of the per-month merge loop of `fill_file` in
`fillManualAirFromOpenMeteo.py` (lines 269-279), as a function of the
overwrite flag, the stored value `raw.get(field)` and the computed `value`:
returns the new stored value and the contribution to `changed_fields`. -/
def airFieldStep (overwrite : Bool) (current value : Option ℚ) : Option ℚ × ℕ :=
  if value = none then (current, 0)
  else if overwrite = false ∧ current ≠ none then (current, 0)
  else if current ≠ value then (value, 1)
  else (current, 0)

/-- One field of `apply_climate_values` in `fillManualClimateFromMeteostat.py`
(lines 230-244): like `airFieldStep` but the absent-computed-value guard is
written as `value is None and current_value is not None`. -/
def climateFieldStep (overwrite : Bool) (current value : Option ℚ) : Option ℚ × ℕ :=
  if value = none ∧ current ≠ none then (current, 0)
  else if overwrite = false ∧ current ≠ none then (current, 0)
  else if current ≠ value then (value, 1)
  else (current, 0)

/-- Claim C1: in both merge loops, a present stored value is never replaced
when the overwrite flag is false; an absent computed value never erases a
stored value; and the field is written (with the change counter incremented)
exactly when the write is permitted and the computed value differs from the
stored value.  The concrete spec examples (stored 10 / computed 12 / computed
absent) behave as stated. -/
theorem C1_merge_field_rule (overwrite : Bool) (current value : Option ℚ) :
    (airFieldStep overwrite current value =
      if value ≠ none ∧ (overwrite = true ∨ current = none) ∧ current ≠ value
      then (value, 1) else (current, 0)) ∧
    (climateFieldStep overwrite current value =
      if value ≠ none ∧ (overwrite = true ∨ current = none) ∧ current ≠ value
      then (value, 1) else (current, 0)) ∧
    (overwrite = false → current ≠ none →
      airFieldStep overwrite current value = (current, 0) ∧
      climateFieldStep overwrite current value = (current, 0)) ∧
    (value = none →
      airFieldStep overwrite current value = (current, 0) ∧
      climateFieldStep overwrite current value = (current, 0)) ∧
    airFieldStep false (some 10) (some 12) = (some 10, 0) ∧
    airFieldStep true (some 10) (some 12) = (some 12, 1) ∧
    airFieldStep overwrite (some 10) none = (some 10, 0) ∧
    climateFieldStep false (some 10) (some 12) = (some 10, 0) ∧
    climateFieldStep true (some 10) (some 12) = (some 12, 1) ∧
    climateFieldStep overwrite (some 10) none = (some 10, 0) := by
  unfold airFieldStep climateFieldStep
  refine ⟨?_, ?_, ?_, ?_, ?_, ?_, ?_, ?_, ?_, ?_⟩ <;>
    cases overwrite <;> cases current <;> cases value <;> simp_all

/-- Witness for C1 at a concrete input. -/
theorem C1_merge_field_rule_witness :
    (false : Bool) = false ∧ (some (10:ℚ) ≠ none) ∧
    airFieldStep false (some 10) (some 12) = (some 10, 0) := by
  refine ⟨rfl, by simp, ?_⟩
  exact (C1_merge_field_rule false (some 10) (some 12)).2.2.2.2.1

/-- Claim C7: the sample validator returns absent for null, boolean-typed and
non-numeric inputs, absent for every numeric value at or below the sentinel
threshold −900, and the value itself, unchanged, for every numeric value
strictly above the threshold. -/
theorem C7_to_float_sentinel :
    to_float .null = none ∧
    (∀ b, to_float (.boolean b) = none) ∧
    to_float .strErr = none ∧
    to_float .other = none ∧
    (∀ q : ℚ, q ≤ -900 → to_float (.num q) = none ∧ to_float (.strNum q) = none) ∧
    (∀ q : ℚ, -900 < q → to_float (.num q) = some q ∧ to_float (.strNum q) = some q) := by
  refine ⟨rfl, fun _ => rfl, rfl, rfl, fun q hq => ?_, fun q hq => ?_⟩
  · constructor <;> simp [to_float, hq]
  · constructor <;> simp [to_float, not_le.mpr hq]

/-- Witness for C7 at concrete inputs below and above the sentinel. -/
theorem C7_to_float_sentinel_witness :
    ((-1000 : ℚ) ≤ -900 ∧ to_float (.num (-1000)) = none) ∧
    ((-900 : ℚ) < 3 ∧ to_float (.num 3) = some 3) := by
  constructor
  · exact ⟨by norm_num, ((C7_to_float_sentinel.2.2.2.2.1) (-1000) (by norm_num)).1⟩
  · exact ⟨by norm_num, ((C7_to_float_sentinel.2.2.2.2.2) 3 (by norm_num)).1⟩

/-! ### PM2.5 → US AQI fallback derivation (`fillManualAirFromOpenMeteo.py`) -/

/-- `PM25_MIN` constant (line 19). -/
def PM25_MIN : ℚ := 0.0

/-- `AQI_MAX` constant (line 22). -/
def AQI_MAX : ℚ := 500.0

/-- EPA PM2.5 (24h) breakpoints for US AQI conversion (lines 27-35), as
`(c_low, c_high, i_low, i_high)` rows. -/
def US_AQI_PM25_BREAKPOINTS : List (ℚ × ℚ × ℚ × ℚ) :=
  [(0.0, 12.0, 0.0, 50.0),
   (12.1, 35.4, 51.0, 100.0),
   (35.5, 55.4, 101.0, 150.0),
   (55.5, 150.4, 151.0, 200.0),
   (150.5, 250.4, 201.0, 300.0),
   (250.5, 350.4, 301.0, 400.0),
   (350.5, 500.4, 401.0, 500.0)]

/-- The breakpoint loop of `pm25_to_us_aqi` (lines 93-98): the first row whose
interval contains the concentration produces the interpolated AQI; if no row
matches the loop falls through (`none`). -/
def aqiLookup : List (ℚ × ℚ × ℚ × ℚ) → ℚ → Option ℚ
  | [], _ => none
  | (cLow, cHigh, iLow, iHigh) :: rest, c =>
    if cLow ≤ c ∧ c ≤ cHigh then
      if cHigh = cLow then round_or_none (some iHigh) 1
      else round_or_none (some (((iHigh - iLow) / (cHigh - cLow)) * (c - cLow) + iLow)) 1
    else aqiLookup rest c

/-- `pm25_to_us_aqi` (lines 88-100): clamp the concentration into
`[PM25_MIN, 500.4]`, run the breakpoint loop, and default to
`round_or_none(AQI_MAX)` when the loop falls through. -/
def pm25_to_us_aqi : Option ℚ → Option ℚ
  | none => none
  | some pm =>
    let concentration := max PM25_MIN (min 500.4 pm)
    some ((aqiLookup US_AQI_PM25_BREAKPOINTS concentration).getD (roundTo 1 AQI_MAX))

theorem aqiLookup_cons_neg {cLow cHigh iLow iHigh : ℚ} {rest : List (ℚ × ℚ × ℚ × ℚ)}
    {c : ℚ} (h : ¬(cLow ≤ c ∧ c ≤ cHigh)) :
    aqiLookup ((cLow, cHigh, iLow, iHigh) :: rest) c = aqiLookup rest c := by
  simp [aqiLookup, h]

theorem aqiLookup_cons_pos {cLow cHigh iLow iHigh : ℚ} {rest : List (ℚ × ℚ × ℚ × ℚ)}
    {c : ℚ} (h1 : cLow ≤ c) (h2 : c ≤ cHigh) (hne : cHigh ≠ cLow) :
    aqiLookup ((cLow, cHigh, iLow, iHigh) :: rest) c =
      some (roundTo 1 (((iHigh - iLow) / (cHigh - cLow)) * (c - cLow) + iLow)) := by
  simp [aqiLookup, h1, h2, hne, round_or_none]

/-- Banker's rounding of a rational that is already an integer is exact. -/
theorem roundHalfEven_intCast (n : ℤ) : roundHalfEven (n : ℚ) = n := by
  unfold roundHalfEven
  rw [Int.floor_intCast]
  norm_num

/-- `round(x, 1)` of an exact tenth is exact. -/
theorem roundTo_one_tenth (n : ℤ) : roundTo 1 ((n : ℚ) / 10) = (n : ℚ) / 10 := by
  unfold roundTo
  have h : ((n : ℚ) / 10) * 10 ^ 1 = (n : ℚ) := by ring
  rw [h, roundHalfEven_intCast]
  norm_num

/-- Claim C2: `pm25_to_us_aqi` clamps its non-`None` input into `[0, 500.4]`;
for a clamped concentration lying inside a breakpoint row `[c_low, c_high]`
it returns the linear interpolation
`(i_high − i_low)/(c_high − c_low) · (c − c_low) + i_low` rounded to one
decimal; and `pm25_to_us_aqi` maps `12.0 ↦ 50.0`, `12.1 ↦ 51.0`,
`35.4 ↦ 100.0` exactly. -/
theorem C2_pm25_breakpoint_interpolation (pm cLow cHigh iLow iHigh : ℚ)
    (hmem : (cLow, cHigh, iLow, iHigh) ∈ US_AQI_PM25_BREAKPOINTS)
    (h1 : cLow ≤ max PM25_MIN (min 500.4 pm))
    (h2 : max PM25_MIN (min 500.4 pm) ≤ cHigh) :
    pm25_to_us_aqi (some pm) =
      some (roundTo 1 (((iHigh - iLow) / (cHigh - cLow)) *
        (max PM25_MIN (min 500.4 pm) - cLow) + iLow)) ∧
    pm25_to_us_aqi (some 12) = some 50 ∧
    pm25_to_us_aqi (some 12.1) = some 51 ∧
    pm25_to_us_aqi (some 35.4) = some 100 := by
  constructor
  · set c := max PM25_MIN (min 500.4 pm) with hc
    show some ((aqiLookup US_AQI_PM25_BREAKPOINTS c).getD (roundTo 1 AQI_MAX)) = _
    simp only [US_AQI_PM25_BREAKPOINTS, List.mem_cons, List.not_mem_nil, or_false,
      Prod.mk.injEq] at hmem
    rcases hmem with ⟨e1, e2, e3, e4⟩ | ⟨e1, e2, e3, e4⟩ | ⟨e1, e2, e3, e4⟩ |
      ⟨e1, e2, e3, e4⟩ | ⟨e1, e2, e3, e4⟩ | ⟨e1, e2, e3, e4⟩ | ⟨e1, e2, e3, e4⟩ <;>
      subst e1 <;> subst e2 <;> subst e3 <;> subst e4 <;>
      simp only [US_AQI_PM25_BREAKPOINTS]
    · rw [aqiLookup_cons_pos h1 h2 (by norm_num)]
      rfl
    · rw [aqiLookup_cons_neg (by rintro ⟨ha, hb⟩; linarith),
        aqiLookup_cons_pos h1 h2 (by norm_num)]
      rfl
    · rw [aqiLookup_cons_neg (by rintro ⟨ha, hb⟩; linarith),
        aqiLookup_cons_neg (by rintro ⟨ha, hb⟩; linarith),
        aqiLookup_cons_pos h1 h2 (by norm_num)]
      rfl
    · rw [aqiLookup_cons_neg (by rintro ⟨ha, hb⟩; linarith),
        aqiLookup_cons_neg (by rintro ⟨ha, hb⟩; linarith),
        aqiLookup_cons_neg (by rintro ⟨ha, hb⟩; linarith),
        aqiLookup_cons_pos h1 h2 (by norm_num)]
      rfl
    · rw [aqiLookup_cons_neg (by rintro ⟨ha, hb⟩; linarith),
        aqiLookup_cons_neg (by rintro ⟨ha, hb⟩; linarith),
        aqiLookup_cons_neg (by rintro ⟨ha, hb⟩; linarith),
        aqiLookup_cons_neg (by rintro ⟨ha, hb⟩; linarith),
        aqiLookup_cons_pos h1 h2 (by norm_num)]
      rfl
    · rw [aqiLookup_cons_neg (by rintro ⟨ha, hb⟩; linarith),
        aqiLookup_cons_neg (by rintro ⟨ha, hb⟩; linarith),
        aqiLookup_cons_neg (by rintro ⟨ha, hb⟩; linarith),
        aqiLookup_cons_neg (by rintro ⟨ha, hb⟩; linarith),
        aqiLookup_cons_neg (by rintro ⟨ha, hb⟩; linarith),
        aqiLookup_cons_pos h1 h2 (by norm_num)]
      rfl
    · rw [aqiLookup_cons_neg (by rintro ⟨ha, hb⟩; linarith),
        aqiLookup_cons_neg (by rintro ⟨ha, hb⟩; linarith),
        aqiLookup_cons_neg (by rintro ⟨ha, hb⟩; linarith),
        aqiLookup_cons_neg (by rintro ⟨ha, hb⟩; linarith),
        aqiLookup_cons_neg (by rintro ⟨ha, hb⟩; linarith),
        aqiLookup_cons_neg (by rintro ⟨ha, hb⟩; linarith),
        aqiLookup_cons_pos h1 h2 (by norm_num)]
      rfl
  refine ⟨?_, ?_, ?_⟩
  · show some ((aqiLookup US_AQI_PM25_BREAKPOINTS
      (max PM25_MIN (min 500.4 12))).getD (roundTo 1 AQI_MAX)) = _
    rw [show max PM25_MIN (min (500.4:ℚ) 12) = 12 by
      rw [min_eq_right (by norm_num), max_eq_right (by norm_num [PM25_MIN])]]
    simp only [US_AQI_PM25_BREAKPOINTS]
    rw [aqiLookup_cons_pos (by norm_num) (by norm_num) (by norm_num)]
    norm_num [roundTo, roundHalfEven]
  · show some ((aqiLookup US_AQI_PM25_BREAKPOINTS
      (max PM25_MIN (min 500.4 12.1))).getD (roundTo 1 AQI_MAX)) = _
    rw [show max PM25_MIN (min (500.4:ℚ) 12.1) = 12.1 by
      rw [min_eq_right (by norm_num), max_eq_right (by norm_num [PM25_MIN])]]
    simp only [US_AQI_PM25_BREAKPOINTS]
    rw [aqiLookup_cons_neg (by rintro ⟨ha, hb⟩; norm_num at hb),
      aqiLookup_cons_pos (by norm_num) (by norm_num) (by norm_num)]
    norm_num [roundTo, roundHalfEven]
  · show some ((aqiLookup US_AQI_PM25_BREAKPOINTS
      (max PM25_MIN (min 500.4 35.4))).getD (roundTo 1 AQI_MAX)) = _
    rw [show max PM25_MIN (min (500.4:ℚ) 35.4) = 35.4 by
      rw [min_eq_right (by norm_num), max_eq_right (by norm_num [PM25_MIN])]]
    simp only [US_AQI_PM25_BREAKPOINTS]
    rw [aqiLookup_cons_neg (by rintro ⟨ha, hb⟩; norm_num at hb),
      aqiLookup_cons_pos (by norm_num) (by norm_num) (by norm_num)]
    norm_num [roundTo, roundHalfEven]

/-- Witness for C2 at the first breakpoint row and input `12.0`. -/
theorem C2_pm25_breakpoint_interpolation_witness :
    ((0.0:ℚ), (12.0:ℚ), (0.0:ℚ), (50.0:ℚ)) ∈ US_AQI_PM25_BREAKPOINTS ∧
    pm25_to_us_aqi (some 12) = some 50 := by
  refine ⟨by simp [US_AQI_PM25_BREAKPOINTS], ?_⟩
  have h12 : max PM25_MIN (min (500.4:ℚ) 12) = 12 := by
    rw [min_eq_right (by norm_num), max_eq_right (by norm_num [PM25_MIN])]
  exact (C2_pm25_breakpoint_interpolation 12 0.0 12.0 0.0 50.0
    (by simp [US_AQI_PM25_BREAKPOINTS]) (by rw [h12]; norm_num)
    (by rw [h12]; norm_num)).2.1

/-- Claim C9: a clamped concentration falling strictly between two consecutive
breakpoint rows (e.g. `12.0 < c < 12.1`) matches no row, so the loop falls
through and `pm25_to_us_aqi` returns the maximum AQI `500.0`. -/
theorem C9_pm25_gap_returns_max (c : ℚ)
    (hgap : (12 < c ∧ c < 12.1) ∨ (35.4 < c ∧ c < 35.5) ∨ (55.4 < c ∧ c < 55.5) ∨
      (150.4 < c ∧ c < 150.5) ∨ (250.4 < c ∧ c < 250.5) ∨ (350.4 < c ∧ c < 350.5)) :
    pm25_to_us_aqi (some c) = some 500 := by
  have hlo : (0:ℚ) < c := by rcases hgap with ⟨h, _⟩ | ⟨h, _⟩ | ⟨h, _⟩ | ⟨h, _⟩ |
    ⟨h, _⟩ | ⟨h, _⟩ <;> linarith
  have hhi : c < 500.4 := by rcases hgap with ⟨_, h⟩ | ⟨_, h⟩ | ⟨_, h⟩ | ⟨_, h⟩ |
    ⟨_, h⟩ | ⟨_, h⟩ <;> linarith
  show some ((aqiLookup US_AQI_PM25_BREAKPOINTS
    (max PM25_MIN (min 500.4 c))).getD (roundTo 1 AQI_MAX)) = _
  rw [show max PM25_MIN (min (500.4:ℚ) c) = c by
    rw [min_eq_right (by linarith), max_eq_right (by rw [PM25_MIN]; norm_num; linarith)]]
  have hnone : aqiLookup US_AQI_PM25_BREAKPOINTS c = none := by
    simp only [US_AQI_PM25_BREAKPOINTS]
    rcases hgap with ⟨ha, hb⟩ | ⟨ha, hb⟩ | ⟨ha, hb⟩ | ⟨ha, hb⟩ | ⟨ha, hb⟩ | ⟨ha, hb⟩ <;>
      rw [aqiLookup_cons_neg (by rintro ⟨h1, h2⟩; norm_num at h1 h2 ⊢; linarith),
        aqiLookup_cons_neg (by rintro ⟨h1, h2⟩; norm_num at h1 h2 ⊢; linarith),
        aqiLookup_cons_neg (by rintro ⟨h1, h2⟩; norm_num at h1 h2 ⊢; linarith),
        aqiLookup_cons_neg (by rintro ⟨h1, h2⟩; norm_num at h1 h2 ⊢; linarith),
        aqiLookup_cons_neg (by rintro ⟨h1, h2⟩; norm_num at h1 h2 ⊢; linarith),
        aqiLookup_cons_neg (by rintro ⟨h1, h2⟩; norm_num at h1 h2 ⊢; linarith),
        aqiLookup_cons_neg (by rintro ⟨h1, h2⟩; norm_num at h1 h2 ⊢; linarith)] <;>
      rfl
  rw [hnone]
  show some (roundTo 1 AQI_MAX) = _
  norm_num [roundTo, roundHalfEven, AQI_MAX]

/-- Witness for C9 at the concrete gap concentration `12.05`. -/
theorem C9_pm25_gap_returns_max_witness :
    ((12:ℚ) < 12.05 ∧ (12.05:ℚ) < 12.1) ∧ pm25_to_us_aqi (some 12.05) = some 500 :=
  ⟨by norm_num, C9_pm25_gap_returns_max 12.05 (Or.inl (by norm_num))⟩

/-! ### Marine coverage scoring (`fillManualMarineFromOpenMeteo.py`) -/

/-- `MONTHS = tuple(range(1, 13))`. -/
def MONTHS : List ℕ := [1, 2, 3, 4, 5, 6, 7, 8, 9, 10, 11, 12]

/-- One month's entry of the `monthly_marine_aggregate` result (lines
203-209). -/
structure MarineRow where
  wave_height_min_m : Option ℚ
  wave_height_avg_m : Option ℚ
  wave_height_max_m : Option ℚ
  wave_interval_avg_s : Option ℚ
  water_temp_c : Option ℚ

/-- `by_month.get(month, {})` with a missing month yields a row with every
field absent; a table is therefore modelled as a total function defaulting to
this row. -/
def emptyMarineRow : MarineRow := ⟨none, none, none, none, none⟩

/-- Result record of `marine_coverage` (lines 232-237). -/
structure Coverage where
  wave_months : ℕ
  water_months : ℕ
  full_months : ℕ
  score : ℕ

/-- `has_wave` test of the coverage loop (line 221). -/
def hasWave (row : MarineRow) : Bool :=
  row.wave_height_avg_m.isSome && row.wave_interval_avg_s.isSome

/-- `has_water` test of the coverage loop (line 222). -/
def hasWater (row : MarineRow) : Bool :=
  row.water_temp_c.isSome

/-- Loop body of `marine_coverage` accumulating
`(wave_months, water_months, full_months)`. -/
def coverageStep (byMonth : ℕ → MarineRow) (acc : ℕ × ℕ × ℕ) (m : ℕ) : ℕ × ℕ × ℕ :=
  (acc.1 + (if hasWave (byMonth m) then 1 else 0),
   acc.2.1 + (if hasWater (byMonth m) then 1 else 0),
   acc.2.2 + (if hasWave (byMonth m) && hasWater (byMonth m) then 1 else 0))

/-- `marine_coverage` (lines 214-237): count months with wave data, with water
data, and with both, and score `wave_months * 100 + water_months`. -/
def marine_coverage (byMonth : ℕ → MarineRow) : Coverage :=
  let counts := MONTHS.foldl (coverageStep byMonth) (0, 0, 0)
  { wave_months := counts.1, water_months := counts.2.1, full_months := counts.2.2,
    score := counts.1 * 100 + counts.2.1 }

theorem coverage_foldl (byMonth : ℕ → MarineRow) (l : List ℕ) (a b c : ℕ) :
    l.foldl (coverageStep byMonth) (a, b, c) =
      (a + (l.filter fun m => hasWave (byMonth m)).length,
       b + (l.filter fun m => hasWater (byMonth m)).length,
       c + (l.filter fun m => hasWave (byMonth m) && hasWater (byMonth m)).length) := by
  induction l generalizing a b c with
  | nil => simp
  | cons m t ih =>
    simp only [List.foldl_cons, coverageStep]
    rw [ih]
    simp only [List.filter_cons]
    cases hW : hasWave (byMonth m) <;> cases hT : hasWater (byMonth m) <;>
      simp_all [Prod.ext_iff] <;> omega

theorem marine_coverage_counts (byMonth : ℕ → MarineRow) :
    (marine_coverage byMonth).wave_months =
        (MONTHS.filter fun m => hasWave (byMonth m)).length ∧
      (marine_coverage byMonth).water_months =
        (MONTHS.filter fun m => hasWater (byMonth m)).length ∧
      (marine_coverage byMonth).score =
        (marine_coverage byMonth).wave_months * 100 + (marine_coverage byMonth).water_months := by
  unfold marine_coverage
  rw [show ((0, 0, 0) : ℕ × ℕ × ℕ) = ((0 : ℕ), (0 : ℕ), (0 : ℕ)) from rfl, coverage_foldl]
  simp

/-- Claim C5: the marine coverage score is
`100 · #{months with both wave-height and wave-period averages} +
#{months with sea-surface temperature}`, and a table with wave data in all 12
months strictly outranks any table with wave data in fewer months, whatever
their water-temperature counts. -/
theorem C5_marine_coverage_score (byMonth t1 t2 : ℕ → MarineRow)
    (h1 : (MONTHS.filter fun m => hasWave (t1 m)).length = 12)
    (h2 : (MONTHS.filter fun m => hasWave (t2 m)).length < 12) :
    (marine_coverage byMonth).score =
      100 * (MONTHS.filter fun m => hasWave (byMonth m)).length +
        (MONTHS.filter fun m => hasWater (byMonth m)).length ∧
    (marine_coverage t2).score < (marine_coverage t1).score := by
  constructor
  · obtain ⟨hw, ht, hs⟩ := marine_coverage_counts byMonth
    rw [hs, hw, ht]; ring
  · obtain ⟨hw1, ht1, hs1⟩ := marine_coverage_counts t1
    obtain ⟨hw2, ht2, hs2⟩ := marine_coverage_counts t2
    have b1 : (MONTHS.filter fun m => hasWater (t1 m)).length ≤ 12 :=
      le_trans (List.length_filter_le _ _) (by rfl)
    have b2 : (MONTHS.filter fun m => hasWater (t2 m)).length ≤ 12 :=
      le_trans (List.length_filter_le _ _) (by rfl)
    rw [hs1, hs2, hw1, hw2, ht1, ht2]
    omega

/-- Witness for C5: a table with full wave coverage beats a table with none. -/
theorem C5_marine_coverage_score_witness :
    (MONTHS.filter fun _ => hasWave ⟨none, some 1, none, some 2, none⟩).length = 12 ∧
    (MONTHS.filter fun _ => hasWave emptyMarineRow).length < 12 ∧
    (marine_coverage fun _ => emptyMarineRow).score <
      (marine_coverage fun _ => (⟨none, some 1, none, some 2, none⟩ : MarineRow)).score := by
  refine ⟨rfl, by norm_num [MONTHS, emptyMarineRow, hasWave], ?_⟩
  exact (C5_marine_coverage_score (fun _ => emptyMarineRow)
    (fun _ => ⟨none, some 1, none, some 2, none⟩) (fun _ => emptyMarineRow)
    rfl (by norm_num [MONTHS, emptyMarineRow, hasWave])).2

/-! ### Month-row merge loops and last-updated stamping -/

/-- A month row's `raw` mapping: `raw.get(field)` is `none` both for a missing
key and for a stored JSON `null`. -/
def Raw : Type := String → Option ℚ

/-- `raw[key] = value` as a functional update. -/
def setKey (raw : Raw) (k : String) (v : Option ℚ) : Raw :=
  fun k' => if k' = k then v else raw k'

/-- `apply_climate_values` (`fillManualClimateFromMeteostat.py` lines
230-244): fold `climateFieldStep` over the computed `(key, value)` items,
returning the updated mapping and the number of changed fields.  (A step that
leaves the field unchanged re-stores the same value, which is extensionally
the identity.) -/
def apply_climate_values (raw : Raw) (values : List (String × Option ℚ))
    (overwrite : Bool) : Raw × ℕ :=
  values.foldl (fun acc kv =>
    let step := climateFieldStep overwrite (acc.1 kv.1) kv.2
    (setKey acc.1 kv.1 step.1, acc.2 + step.2)) (raw, 0)

/-- Per-month field loop of `fill_file` in `fillManualAirFromOpenMeteo.py`
(lines 269-279): names starting with `_` (the `_aqi_fallback_used` marker)
are skipped, then `airFieldStep` is applied. -/
def airApplyRaw (raw : Raw) (values : List (String × Option ℚ))
    (overwrite : Bool) : Raw × ℕ :=
  values.foldl (fun acc kv =>
    if kv.1.startsWith "_" then acc
    else
      let step := airFieldStep overwrite (acc.1 kv.1) kv.2
      (setKey acc.1 kv.1 step.1, acc.2 + step.2)) (raw, 0)

/-- Per-month field loop of `fill_file` in `fillManualMarineFromOpenMeteo.py`
(lines 348-356), identical to the air loop but with no meta keys. -/
def marineApplyRaw (raw : Raw) (values : List (String × Option ℚ))
    (overwrite : Bool) : Raw × ℕ :=
  values.foldl (fun acc kv =>
    let step := airFieldStep overwrite (acc.1 kv.1) kv.2
    (setKey acc.1 kv.1 step.1, acc.2 + step.2)) (raw, 0)

/-- A persisted month row: `month` is `some m` when the stored value is an
`int` (`none` models a missing or non-integer value), `raw` is `some` when the
stored value is a dict. -/
structure MonthRow where
  month : Option ℤ
  raw : Option Raw
  air_last_updated : Option String := none
  climate_last_updated : Option String := none
  marine_last_updated : Option String := none

/-- Month-row processing of `process_file` in
`fillManualClimateFromMeteostat.py` (lines 286-299): well-formed rows get
`apply_climate_values` applied and `climate_last_updated` set
unconditionally. -/
def processClimateRow (row : MonthRow) (monthValues : ℤ → List (String × Option ℚ))
    (overwrite : Bool) (fetched_at : String) : MonthRow × ℕ :=
  match row.month with
  | none => (row, 0)
  | some m =>
    if m < 1 ∨ 12 < m then (row, 0)
    else
      match row.raw with
      | none => (row, 0)
      | some raw =>
        let res := apply_climate_values raw (monthValues m) overwrite
        ({ row with raw := some res.1, climate_last_updated := some fetched_at }, res.2)

/-- Month-row processing of `fill_file` in `fillManualAirFromOpenMeteo.py`
(lines 258-283): `air_last_updated` is stamped only when the row changed. -/
def processAirRow (row : MonthRow) (by_month : ℤ → Option (List (String × Option ℚ)))
    (overwrite : Bool) (fetched_at : String) : MonthRow × ℕ :=
  match row.month with
  | none => (row, 0)
  | some m =>
    match by_month m with
    | none => (row, 0)
    | some values =>
      match row.raw with
      | none => (row, 0)
      | some raw =>
        let res := airApplyRaw raw values overwrite
        if 0 < res.2 then
          ({ row with raw := some res.1, air_last_updated := some fetched_at }, res.2)
        else ({ row with raw := some res.1 }, res.2)

/-- Month-row processing of `fill_file` in `fillManualMarineFromOpenMeteo.py`
(lines 341-360): `marine_last_updated` is stamped only when the row
changed. -/
def processMarineRow (row : MonthRow) (by_month : ℤ → Option (List (String × Option ℚ)))
    (overwrite : Bool) (fetched_at : String) : MonthRow × ℕ :=
  match row.month with
  | none => (row, 0)
  | some m =>
    match by_month m with
    | none => (row, 0)
    | some values =>
      match row.raw with
      | none => (row, 0)
      | some raw =>
        let res := marineApplyRaw raw values overwrite
        if 0 < res.2 then
          ({ row with raw := some res.1, marine_last_updated := some fetched_at }, res.2)
        else ({ row with raw := some res.1 }, res.2)

/-- Claim C10: the Meteostat climate filler sets `climate_last_updated` on
every well-formed month row on every run — even when no field changed — while
the air and marine fillers stamp their last-updated field only when at least
one field in the month changed. -/
theorem C10_climate_stamps_unconditionally (row : MonthRow) (m : ℤ) (r : Raw)
    (mv : ℤ → List (String × Option ℚ))
    (bymA bymM : ℤ → Option (List (String × Option ℚ))) (ow : Bool) (ts : String)
    (hm : row.month = some m) (hlo : 1 ≤ m) (hhi : m ≤ 12) (hr : row.raw = some r) :
    ((processClimateRow row mv ow ts).1.climate_last_updated = some ts) ∧
    (∀ vs, bymA m = some vs → (airApplyRaw r vs ow).2 = 0 →
      (processAirRow row bymA ow ts).1.air_last_updated = row.air_last_updated) ∧
    (∀ vs, bymA m = some vs → 0 < (airApplyRaw r vs ow).2 →
      (processAirRow row bymA ow ts).1.air_last_updated = some ts) ∧
    (∀ vs, bymM m = some vs → (marineApplyRaw r vs ow).2 = 0 →
      (processMarineRow row bymM ow ts).1.marine_last_updated = row.marine_last_updated) ∧
    (∀ vs, bymM m = some vs → 0 < (marineApplyRaw r vs ow).2 →
      (processMarineRow row bymM ow ts).1.marine_last_updated = some ts) := by
  have hcond : ¬(m < 1 ∨ 12 < m) := by omega
  refine ⟨?_, ?_, ?_, ?_, ?_⟩
  · unfold processClimateRow
    simp [hm, hr, hcond]
  · intro vs hvs hz
    unfold processAirRow
    simp [hm, hvs, hr, hz]
  · intro vs hvs hz
    unfold processAirRow
    simp [hm, hvs, hr, hz]
  · intro vs hvs hz
    unfold processMarineRow
    simp [hm, hvs, hr, hz]
  · intro vs hvs hz
    unfold processMarineRow
    simp [hm, hvs, hr, hz]

/-- Witness for C10: a row whose stored value already equals the computed
value — zero fields change, yet the climate stamp is applied. -/
theorem C10_climate_stamps_unconditionally_witness :
    (apply_climate_values (fun _ => some 10) [("rain_mm", some 10)] false).2 = 0 ∧
    (processClimateRow { month := some 1, raw := some (fun _ => some 10) }
      (fun _ => [("rain_mm", some 10)]) false "T").1.climate_last_updated = some "T" := by
  constructor
  · simp [apply_climate_values, climateFieldStep]
  · exact (C10_climate_stamps_unconditionally
      { month := some 1, raw := some (fun _ => some 10) } 1 (fun _ => some 10)
      (fun _ => [("rain_mm", some 10)]) (fun _ => some []) (fun _ => some [])
      false "T" rfl (by norm_num) (by norm_num) rfl).1

/-! ### Provenance accumulation (`append_source`)

Python strings are modelled as `List Char`; `str.strip()` is `stripChars`
(drop leading whitespace, then drop trailing whitespace) and the substring
test `addition in current` is `isSub`. -/

/-- Python whitespace test used by `str.strip()`. -/
def ws (c : Char) : Bool := c.isWhitespace

/-- Drop trailing whitespace (the right half of `str.strip()`). -/
def rstrip : List Char → List Char
  | [] => []
  | c :: t =>
    if (rstrip t).isEmpty && ws c then [] else c :: rstrip t

/-- `str.strip()`: drop leading then trailing whitespace. -/
def stripChars (s : List Char) : List Char := rstrip (s.dropWhile ws)

/-- Python `str.startswith` on character lists. -/
def isPre : List Char → List Char → Bool
  | [], _ => true
  | _ :: _, [] => false
  | a :: s, b :: t => a = b && isPre s t

/-- Python's contiguous-substring test `needle in hay`. -/
def isSub (needle : List Char) : List Char → Bool
  | [] => needle.isEmpty
  | h :: t => isPre needle (h :: t) || isSub needle t

/-- The separator of `f"{current} | {addition}"`. -/
def SEP : List Char := [' ', '|', ' ']

/-- `append_source` (`fillManualAirFromOpenMeteo.py` lines 232-238, verbatim
again in `fillManualMarineFromOpenMeteo.py` lines 273-279). -/
def append_source (existing addition : List Char) : List Char :=
  let current := stripChars existing
  if current.isEmpty then addition
  else if isSub addition current then current
  else current ++ SEP ++ addition

theorem isPre_refl (l : List Char) : isPre l l = true := by
  induction l with
  | nil => rfl
  | cons c t ih => simp [isPre, ih]

theorem isSub_refl (l : List Char) : isSub l l = true := by
  cases l with
  | nil => rfl
  | cons c t => simp [isSub, isPre_refl]

theorem isSub_append_left (y n : List Char) : isSub n (y ++ n) = true := by
  induction y with
  | nil => simpa using isSub_refl n
  | cons c t ih => simp [isSub, ih]

theorem isSub_nil_left (l : List Char) (h : l ≠ []) : isSub [] l = true := by
  cases l with
  | nil => exact absurd rfl h
  | cons c t => simp [isSub, isPre]

theorem rstrip_cons (c : Char) (t : List Char) :
    rstrip (c :: t) =
      if ((rstrip t).isEmpty && ws c) = true then [] else c :: rstrip t := rfl

theorem stripChars_eq (x : List Char) : stripChars x = rstrip (x.dropWhile ws) := rfl

theorem append_source_eq (e a : List Char) :
    append_source e a =
      if (stripChars e).isEmpty then a
      else if isSub a (stripChars e) then stripChars e
      else stripChars e ++ SEP ++ a := rfl

theorem rstrip_cases (c : Char) (t : List Char) :
    rstrip (c :: t) = [] ∨ rstrip (c :: t) = c :: rstrip t := by
  rw [rstrip_cons]
  by_cases h : ((rstrip t).isEmpty && ws c) = true
  · rw [if_pos h]; exact Or.inl rfl
  · rw [if_neg h]; exact Or.inr rfl

theorem rstrip_length_le (l : List Char) : (rstrip l).length ≤ l.length := by
  induction l with
  | nil => simp [rstrip]
  | cons c t ih =>
    rcases rstrip_cases c t with h | h <;> rw [h]
    · simp
    · simp only [List.length_cons]
      omega

theorem rstrip_idem (l : List Char) : rstrip (rstrip l) = rstrip l := by
  induction l with
  | nil => rfl
  | cons c t ih =>
    rcases rstrip_cases c t with h | h
    · rw [h]; rfl
    · rw [h, rstrip_cons, ih]
      by_cases hcnd : ((rstrip t).isEmpty && ws c) = true
      · rw [rstrip_cons, if_pos hcnd] at h
        simp at h
      · rw [if_neg hcnd]

theorem dropWhile_head_false (l : List Char) :
    l.dropWhile ws = [] ∨ ∃ c t, l.dropWhile ws = c :: t ∧ ws c = false := by
  induction l with
  | nil => exact Or.inl rfl
  | cons c t ih =>
    by_cases h : ws c
    · rw [List.dropWhile_cons_of_pos (by simpa using h)]
      exact ih
    · rw [List.dropWhile_cons_of_neg (by simpa using h)]
      exact Or.inr ⟨c, t, rfl, by simpa using h⟩

theorem dropWhile_length_le (l : List Char) : (l.dropWhile ws).length ≤ l.length :=
  List.Sublist.length_le (List.dropWhile_sublist ws)

theorem dropWhile_of_length_eq (l : List Char) (h : (l.dropWhile ws).length = l.length) :
    l.dropWhile ws = l := by
  induction l with
  | nil => rfl
  | cons c t ih =>
    by_cases hc : ws c
    · rw [List.dropWhile_cons_of_pos (by simpa using hc)] at h
      have := dropWhile_length_le t
      simp at h
      omega
    · rw [List.dropWhile_cons_of_neg (by simpa using hc)]

/-- `strip` of an already-stripped string is a fixed point. -/
theorem stripChars_idem (s : List Char) : stripChars (stripChars s) = stripChars s := by
  unfold stripChars
  rcases dropWhile_head_false s with h | ⟨c, t, h, hc⟩
  · rw [h]; rfl
  · rw [h]
    rcases rstrip_cases c t with h2 | h2
    · rw [h2]; rfl
    · rw [h2, List.dropWhile_cons_of_neg (by simp [hc]), ← h2, rstrip_idem]

/-- A fixed point of `strip` is a fixed point of both halves. -/
theorem strip_fixed_parts (a : List Char) (ha : stripChars a = a) :
    a.dropWhile ws = a ∧ rstrip a = a := by
  have hlen : (a.dropWhile ws).length = a.length := by
    have h1 : (stripChars a).length ≤ (a.dropWhile ws).length := rstrip_length_le _
    have h2 := dropWhile_length_le a
    rw [ha] at h1
    omega
  have hd := dropWhile_of_length_eq a hlen
  refine ⟨hd, ?_⟩
  unfold stripChars at ha
  rwa [hd] at ha

theorem rstrip_append (y a : List Char) (ha : rstrip a = a) (hne : a ≠ []) :
    rstrip (y ++ a) = y ++ a := by
  induction y with
  | nil => simpa using ha
  | cons c t ih =>
    rw [List.cons_append]
    unfold rstrip
    rw [ih]
    have : (t ++ a).isEmpty = false := by
      cases a with
      | nil => exact absurd rfl hne
      | cons x xs => cases t <;> rfl
    simp [this]

/-- A nonempty `strip` result starts with a non-whitespace character. -/
theorem stripChars_head (s : List Char) (h : stripChars s ≠ []) :
    ∃ c r, stripChars s = c :: r ∧ ws c = false := by
  unfold stripChars at *
  rcases dropWhile_head_false s with hd | ⟨c, t, hd, hc⟩
  · rw [hd] at h; exact absurd rfl h
  · rw [hd] at h ⊢
    rcases rstrip_cases c t with h2 | h2
    · exact absurd h2 h
    · exact ⟨c, rstrip t, h2, hc⟩

/-- Counterexample to claim C8 as stated: idempotence fails for an addition
carrying leading whitespace (here `" x"` applied to an empty description). -/
theorem C8_append_source_counterexample :
    append_source (append_source [] [' ', 'x']) [' ', 'x'] ≠
      append_source [] [' ', 'x'] := by
  decide

/-- Claim C8 (amended): `append_source` is idempotent for every existing
description and every addition that is strip-stable (no leading or trailing
whitespace) — which every annotation string passed by the fillers, including
the AQI-fallback annotation, is.  Hence re-running a filler against the same
source adds each annotation exactly once. -/
theorem C8_append_source_idempotent (s a : List Char) (ha : stripChars a = a) :
    append_source (append_source s a) a = append_source s a := by
  obtain ⟨hda, hra⟩ := strip_fixed_parts a ha
  by_cases hcur : (stripChars s).isEmpty
  · have h1 : append_source s a = a := by rw [append_source_eq, if_pos hcur]
    rw [h1, append_source_eq, ha]
    by_cases hae : a.isEmpty
    · rw [if_pos hae]
    · rw [if_neg hae, if_pos (isSub_refl a)]
  · rw [append_source_eq s a, if_neg hcur]
    by_cases hsub : isSub a (stripChars s)
    · rw [if_pos hsub, append_source_eq, stripChars_idem, if_neg hcur, if_pos hsub]
    · rw [if_neg hsub]
      have hsne : stripChars s ≠ [] := by
        intro h0; rw [h0] at hcur; exact hcur rfl
      have hane : a ≠ [] := by
        intro hnil
        subst hnil
        exact hsub (by simpa using isSub_nil_left _ hsne)
      obtain ⟨c, r, hcr, hc⟩ := stripChars_head s hsne
      have hdw : (stripChars s ++ SEP ++ a).dropWhile ws = stripChars s ++ SEP ++ a := by
        rw [hcr]
        show ((c :: (r ++ SEP ++ a)) : List Char).dropWhile ws = _
        rw [List.dropWhile_cons_of_neg (by simp [hc])]
        simp
      have hrs : rstrip (stripChars s ++ SEP ++ a) = stripChars s ++ SEP ++ a :=
        rstrip_append (stripChars s ++ SEP) a hra hane
      have hstrip : stripChars (stripChars s ++ SEP ++ a) = stripChars s ++ SEP ++ a := by
        rw [stripChars_eq, hdw, hrs]
      rw [append_source_eq, hstrip]
      have hne2 : ¬((stripChars s ++ SEP ++ a).isEmpty = true) := by
        rw [hcr]
        show ¬(((c :: (r ++ SEP ++ a)) : List Char).isEmpty = true)
        simp
      rw [if_neg hne2, if_pos (isSub_append_left (stripChars s ++ SEP) a)]

/-- Witness for C8 (amended) with a strip-stable addition. -/
theorem C8_append_source_idempotent_witness :
    stripChars ['a', 'b'] = ['a', 'b'] ∧
    append_source (append_source [] ['a', 'b']) ['a', 'b'] =
      append_source [] ['a', 'b'] := by
  refine ⟨by decide, C8_append_source_idempotent [] ['a', 'b'] (by decide)⟩

/-! ### Group-by machinery

Both the pandas `groupby(year).sum()` of the rainfall aggregation and the
`day_map` dictionary of the UV aggregation build an insertion-ordered
key-value table by folding an update over the samples.  `updateKey` models
one dictionary/group update (combine with the existing entry, or append a new
key at the end), and `groupFold` the whole fold. -/

section GroupBy

variable {K : Type} [DecidableEq K]

/-- Update an insertion-ordered table: combine with an existing entry via
`op`, or append the new key. -/
def updateKey (op : ℚ → ℚ → ℚ) : List (K × ℚ) → K → ℚ → List (K × ℚ)
  | [], k, v => [(k, v)]
  | (k0, v0) :: rest, k, v =>
    if k0 = k then (k0, op v0 v) :: rest else (k0, v0) :: updateKey op rest k v

/-- One fold step of the grouping. -/
def groupStep (op : ℚ → ℚ → ℚ) (acc : List (K × ℚ)) (s : K × ℚ) : List (K × ℚ) :=
  updateKey op acc s.1 s.2

/-- Group a list of keyed samples, combining values with `op`. -/
def groupFold (op : ℚ → ℚ → ℚ) (l : List (K × ℚ)) : List (K × ℚ) :=
  l.foldl (groupStep op) []

/-- First-match lookup in a key-value table. -/
def lookupKey : List (K × ℚ) → K → Option ℚ
  | [], _ => none
  | (k0, v0) :: rest, k => if k0 = k then some v0 else lookupKey rest k

/-- Combine a nonempty value list with `op` from the left (`0` for `[]`,
which is never used on an empty list). -/
def combineVals (op : ℚ → ℚ → ℚ) : List ℚ → ℚ
  | [] => 0
  | v :: t => t.foldl op v

/-- Combined value of all samples carrying key `k`, in sample order. -/
def combineD (op : ℚ → ℚ → ℚ) (l : List (K × ℚ)) (k : K) : ℚ :=
  combineVals op ((l.filter (fun s => s.1 = k)).map Prod.snd)

/-- `combineVals` continued from an optional seed. -/
def combineFrom (op : ℚ → ℚ → ℚ) : Option ℚ → List ℚ → Option ℚ
  | some a, vs => some (vs.foldl op a)
  | none, [] => none
  | none, v :: t => some (t.foldl op v)

theorem combineFrom_nil (op : ℚ → ℚ → ℚ) (o : Option ℚ) : combineFrom op o [] = o := by
  cases o <;> rfl

theorem lookupKey_updateKey (op : ℚ → ℚ → ℚ) (m : List (K × ℚ)) (k k' : K) (v : ℚ) :
    lookupKey (updateKey op m k v) k' =
      if k' = k then
        some (match lookupKey m k with | some a => op a v | none => v)
      else lookupKey m k' := by
  induction m with
  | nil =>
    by_cases h : k' = k
    · subst h; simp [updateKey, lookupKey]
    · have h2 : ¬(k = k') := fun hh => h hh.symm
      simp [updateKey, lookupKey, h, h2]
  | cons p rest ih =>
    obtain ⟨k0, v0⟩ := p
    by_cases h0 : k0 = k
    · subst h0
      by_cases h' : k' = k0
      · subst h'
        simp [updateKey, lookupKey]
      · have h2 : ¬(k0 = k') := fun hh => h' hh.symm
        simp [updateKey, lookupKey, h', h2]
    · by_cases h' : k' = k0
      · subst h'
        have h2 : ¬(k' = k) := fun hh => h0 hh
        simp [updateKey, lookupKey, h0, h2]
      · have h2 : ¬(k0 = k') := fun hh => h' hh.symm
        simp [updateKey, lookupKey, h0, h2, ih]

theorem keys_updateKey (op : ℚ → ℚ → ℚ) (m : List (K × ℚ)) (k : K) (v : ℚ) :
    (updateKey op m k v).map Prod.fst =
      if k ∈ m.map Prod.fst then m.map Prod.fst else m.map Prod.fst ++ [k] := by
  induction m with
  | nil => simp [updateKey]
  | cons p rest ih =>
    obtain ⟨k0, v0⟩ := p
    by_cases h0 : k0 = k
    · subst h0; simp [updateKey]
    · have h2 : ¬(k = k0) := fun hh => h0 hh.symm
      simp only [updateKey, if_neg h0, List.map_cons, ih, List.mem_cons]
      by_cases hmem : k ∈ rest.map Prod.fst
      · simp [hmem, h2]
      · simp [hmem, h2]

theorem keys_nodup_foldl (op : ℚ → ℚ → ℚ) (l : List (K × ℚ)) (acc : List (K × ℚ))
    (h : (acc.map Prod.fst).Nodup) :
    (((l.foldl (groupStep op) acc)).map Prod.fst).Nodup := by
  induction l generalizing acc with
  | nil => simpa using h
  | cons s t ih =>
    rw [List.foldl_cons]
    refine ih _ ?_
    show ((updateKey op acc s.1 s.2).map Prod.fst).Nodup
    rw [keys_updateKey]
    by_cases hmem : s.1 ∈ acc.map Prod.fst
    · simpa [hmem] using h
    · rw [if_neg hmem]
      simpa [List.nodup_append, hmem] using h

theorem mem_keys_foldl (op : ℚ → ℚ → ℚ) (l : List (K × ℚ)) (acc : List (K × ℚ)) (k : K) :
    k ∈ (l.foldl (groupStep op) acc).map Prod.fst ↔
      k ∈ acc.map Prod.fst ∨ k ∈ l.map Prod.fst := by
  induction l generalizing acc with
  | nil => simp
  | cons s t ih =>
    rw [List.foldl_cons, ih]
    show (k ∈ (updateKey op acc s.1 s.2).map Prod.fst ∨ _) ↔ _
    rw [keys_updateKey]
    by_cases hmem : s.1 ∈ acc.map Prod.fst
    · simp only [if_pos hmem, List.map_cons, List.mem_cons]
      constructor
      · rintro (h | h)
        · exact Or.inl h
        · exact Or.inr (Or.inr h)
      · rintro (h | h | h)
        · exact Or.inl h
        · exact Or.inl (h ▸ hmem)
        · exact Or.inr h
    · simp only [if_neg hmem, List.mem_append, List.mem_singleton, List.map_cons,
        List.mem_cons]
      tauto

theorem mem_iff_lookupKey (m : List (K × ℚ)) (hnd : (m.map Prod.fst).Nodup) (k : K) (v : ℚ) :
    (k, v) ∈ m ↔ lookupKey m k = some v := by
  induction m with
  | nil => simp [lookupKey]
  | cons p rest ih =>
    obtain ⟨k0, v0⟩ := p
    simp only [List.map_cons, List.nodup_cons] at hnd
    by_cases h0 : k0 = k
    · subst h0
      constructor
      · intro hmem
        rcases List.mem_cons.1 hmem with heq | hmem2
        · rw [show v = v0 from congrArg Prod.snd heq]
          show (if k0 = k0 then some v0 else lookupKey rest k0) = some v0
          rw [if_pos rfl]
        · exact absurd (List.mem_map_of_mem Prod.fst hmem2) hnd.1
      · intro hl
        have h2 : (if k0 = k0 then some v0 else lookupKey rest k0) = some v := hl
        rw [if_pos rfl] at h2
        injection h2 with hv
        rw [← hv]
        exact List.mem_cons_self _ _
    · constructor
      · intro hmem
        rcases List.mem_cons.1 hmem with heq | hmem2
        · exact absurd (congrArg Prod.fst heq).symm h0
        · show (if k0 = k then some v0 else lookupKey rest k) = some v
          rw [if_neg h0]
          exact (ih hnd.2).1 hmem2
      · intro hl
        have h2 : (if k0 = k then some v0 else lookupKey rest k) = some v := hl
        rw [if_neg h0] at h2
        exact List.mem_cons.2 (Or.inr ((ih hnd.2).2 h2))

theorem lookupKey_foldl (op : ℚ → ℚ → ℚ) (l : List (K × ℚ)) (acc : List (K × ℚ)) (k : K) :
    lookupKey (l.foldl (groupStep op) acc) k =
      combineFrom op (lookupKey acc k) ((l.filter (fun s => s.1 = k)).map Prod.snd) := by
  induction l generalizing acc with
  | nil => rw [List.foldl_nil, List.filter_nil, List.map_nil, combineFrom_nil]
  | cons s t ih =>
    rw [List.foldl_cons]
    show lookupKey (t.foldl (groupStep op) (updateKey op acc s.1 s.2)) k = _
    rw [ih, lookupKey_updateKey]
    by_cases hk : s.1 = k
    · rw [if_pos hk.symm]
      rw [List.filter_cons_of_pos (by simpa using hk), List.map_cons]
      subst hk
      cases hl : lookupKey acc s.1 with
      | none => rfl
      | some a => rfl
    · rw [if_neg (fun hh => hk hh.symm)]
      rw [List.filter_cons_of_neg (by simpa using hk)]

theorem lookupKey_groupFold (op : ℚ → ℚ → ℚ) (l : List (K × ℚ)) (k : K) :
    lookupKey (groupFold op l) k =
      if (l.filter (fun s => s.1 = k)).map Prod.snd = [] then none
      else some (combineD op l k) := by
  rw [groupFold, lookupKey_foldl]
  show combineFrom op none _ = _
  rw [combineD]
  cases h : (l.filter (fun s => s.1 = k)).map Prod.snd with
  | nil => rfl
  | cons v tl => rfl

theorem filter_key_ne_nil (l : List (K × ℚ)) (k : K) :
    ((l.filter (fun s => s.1 = k)) = [] ↔ k ∉ l.map Prod.fst) := by
  constructor
  · intro h hmem
    obtain ⟨p, hp, hpk⟩ := List.mem_map.1 hmem
    have : p ∈ l.filter (fun s => s.1 = k) := List.mem_filter.2 ⟨hp, by simpa using hpk⟩
    rw [h] at this
    exact absurd this (List.not_mem_nil p)
  · intro h
    rcases hf : l.filter (fun s => s.1 = k) with _ | ⟨p, tl⟩
    · exact hf
    · have hp : p ∈ l.filter (fun s => s.1 = k) := by rw [hf]; exact List.mem_cons_self p tl
      have := List.mem_filter.1 hp
      exact absurd (List.mem_map.2 ⟨p, this.1, by simpa using this.2⟩) h

/-- The grouped table is, up to permutation, the table pairing each distinct
key with the combined value of its samples. -/
theorem groupFold_perm (op : ℚ → ℚ → ℚ) (l : List (K × ℚ)) :
    List.Perm (groupFold op l)
      ((l.map Prod.fst).dedup.map (fun k => (k, combineD op l k))) := by
  have hnd1 : ((groupFold op l).map Prod.fst).Nodup :=
    keys_nodup_foldl op l [] (by simp)
  have hmemk : ∀ k, k ∈ (groupFold op l).map Prod.fst ↔ k ∈ l.map Prod.fst := by
    intro k
    rw [groupFold, mem_keys_foldl]
    simp
  refine (List.perm_ext_iff_of_nodup (List.Nodup.of_map _ hnd1)
    (List.Nodup.map (fun a b hab => congrArg Prod.fst hab) (List.nodup_dedup _))).2 ?_
  rintro ⟨k, v⟩
  rw [mem_iff_lookupKey _ hnd1, lookupKey_groupFold]
  constructor
  · intro h
    by_cases hnil : (l.filter (fun s => s.1 = k)).map Prod.snd = []
    · rw [if_pos hnil] at h
      exact absurd h (by simp)
    · rw [if_neg hnil] at h
      have hk : k ∈ l.map Prod.fst := by
        by_contra hk
        exact hnil (by rw [(filter_key_ne_nil l k).2 hk]; rfl)
      refine List.mem_map.2 ⟨k, List.mem_dedup.2 hk, ?_⟩
      have hv : v = combineD op l k := by
        injection h with h
        exact h.symm
      rw [hv]
  · intro h
    obtain ⟨k0, hk0, hEq⟩ := List.mem_map.1 h
    obtain ⟨rfl, rfl⟩ : k0 = k ∧ combineD op l k0 = v := by
      injection hEq with h1 h2
      exact ⟨h1, h1 ▸ h2⟩
    have hk : k0 ∈ l.map Prod.fst := List.mem_dedup.1 hk0
    rw [if_neg ?_]
    intro hnil
    rw [List.map_eq_nil_iff] at hnil
    exact absurd hk (((filter_key_ne_nil l k0).1 hnil))

/-- Values of the grouped table are, up to permutation, the combined values
over the distinct keys. -/
theorem groupFold_values_perm (op : ℚ → ℚ → ℚ) (l : List (K × ℚ)) :
    List.Perm ((groupFold op l).map Prod.snd)
      ((l.map Prod.fst).dedup.map (fun k => combineD op l k)) := by
  have h := (groupFold_perm op l).map Prod.snd
  rwa [List.map_map] at h

end GroupBy


/-! ### Rainfall aggregation (`fillManualClimateFromMeteostat.py`) -/

/-- Arithmetic mean of a list (pandas `Series.mean`). -/
def listMean (l : List ℚ) : ℚ := l.sum / l.length

/-- Total precipitation of one year's samples within the month. -/
def yearTotal (l : List (ℤ × ℚ)) (y : ℤ) : ℚ :=
  ((l.filter (fun s => s.1 = y)).map Prod.snd).sum

/-- The rainfall branch of `aggregate_month` (lines 129-134): the month's
valid precipitation samples, as `(year, value)` pairs, are grouped by year
(`prcp.groupby(prcp.index.year).sum(min_count=1)` — every group is nonempty,
so the sum is a plain sum) and the per-year sums are averaged and rounded to
one decimal; an empty sample list yields `None`. -/
def rain_mm (prcp : List (ℤ × ℚ)) : Option ℚ :=
  match prcp with
  | [] => none
  | _ :: _ => some (roundTo 1 (listMean ((groupFold (· + ·) prcp).map Prod.snd)))

/-- The claim's formulation of the rainfall aggregate: sum the samples of each
distinct year, then take the arithmetic mean of those per-year sums over the
distinct years present, rounded to one decimal. -/
def rain_mm_spec (prcp : List (ℤ × ℚ)) : Option ℚ :=
  match prcp with
  | [] => none
  | _ :: _ =>
    some (roundTo 1 (listMean (((prcp.map Prod.fst).dedup).map (yearTotal prcp))))

theorem foldl_add_eq_sum (t : List ℚ) (v : ℚ) : t.foldl (· + ·) v = v + t.sum := by
  induction t generalizing v with
  | nil => simp
  | cons w u ih =>
    rw [List.foldl_cons, ih, List.sum_cons]
    ring

theorem combineD_add {K : Type} [DecidableEq K] (l : List (K × ℚ)) (k : K)
    (h : k ∈ l.map Prod.fst) :
    combineD (· + ·) l k = ((l.filter (fun s => s.1 = k)).map Prod.snd).sum := by
  rw [combineD]
  rcases hf : (l.filter (fun s => s.1 = k)).map Prod.snd with _ | ⟨v, t⟩
  · rw [List.map_eq_nil_iff] at hf
    exact absurd h (fun _ => (filter_key_ne_nil l k).1 hf (by assumption))
  · rw [hf]
    simp only [combineVals]
    rw [foldl_add_eq_sum, List.sum_cons]

/-- Claim C3: the monthly rainfall aggregate first sums the valid samples of
each year within the month, then averages the per-year sums over the distinct
years present (rounded to one decimal) — it is not the average of the raw
samples.  For two years totalling 50 mm and 70 mm it yields 60.0, while the
raw per-sample mean of the same data is 40.0. -/
theorem C3_rainfall_year_sum_then_mean (prcp : List (ℤ × ℚ)) :
    rain_mm prcp = rain_mm_spec prcp ∧
    rain_mm [((2022 : ℤ), (20 : ℚ)), (2022, 30), (2023, 70)] = some 60 ∧
    roundTo 1 (listMean (([((2022 : ℤ), (20 : ℚ)), (2022, 30), (2023, 70)]).map Prod.snd)) =
      40 := by
  refine ⟨?_, ?_, ?_⟩
  · cases prcp with
    | nil => rfl
    | cons p t =>
      show some (roundTo 1 (listMean ((groupFold (· + ·) (p :: t)).map Prod.snd))) = _
      have hperm := groupFold_values_perm (· + ·) (p :: t)
      have hcongr :
          ((p :: t).map Prod.fst).dedup.map (fun k => combineD (· + ·) (p :: t) k) =
            ((p :: t).map Prod.fst).dedup.map (yearTotal (p :: t)) := by
        refine List.map_congr_left ?_
        intro y hy
        exact combineD_add (p :: t) y (List.mem_dedup.1 hy)
      rw [rain_mm_spec]
      rw [show listMean ((groupFold (· + ·) (p :: t)).map Prod.snd) =
          listMean (((p :: t).map Prod.fst).dedup.map (yearTotal (p :: t))) from by
        rw [listMean, listMean, hperm.sum_eq, hperm.length_eq, hcongr]]
  · show some (roundTo 1 (listMean
      ((groupFold (· + ·) [((2022 : ℤ), (20 : ℚ)), (2022, 30), (2023, 70)]).map Prod.snd))) = _
    norm_num [groupFold, groupStep, updateKey, listMean, roundTo, roundHalfEven]
  · norm_num [listMean, roundTo, roundHalfEven]


/-! ### UV daily-peak aggregation (`fillManualAirFromOpenMeteo.py`) -/

/-- `UV_MIN` constant (line 23). -/
def UV_MIN : ℚ := 0.0

/-- `UV_MAX` constant (line 24). -/
def UV_MAX : ℚ := 20.0

/-- One hourly sample of the air payload: `month = int(timestamp[5:7])`,
`day` identifies the calendar-day key `timestamp[:10]`, and `uv` is the raw
`uv_index` entry. -/
structure AirSample where
  month : ℕ
  day : ℕ
  uv : RawValue

/-- `if previous is None or uv > previous: day_map[day_key] = uv` (lines
197-199): combine an existing daily maximum with a new sample. -/
def maxOp (a b : ℚ) : ℚ := if a < b then b else a

/-- The per-sample loop of `monthly_air_aggregate` (lines 177-199) restricted
to the `uv_index` variable and one month bucket `m`: a sample lands in the
bucket when its month is `m` and `m` is a real month (`month not in month_pm`
guard); valid values are appended to `month_uv[m]` and folded into the
day→maximum dictionary `month_day_uv_max[m]`. -/
def uvStep (m : ℕ) (acc : List ℚ × List (ℕ × ℚ)) (s : AirSample) :
    List ℚ × List (ℕ × ℚ) :=
  if s.month = m ∧ s.month ∈ MONTHS then
    match to_float s.uv with
    | none => acc
    | some uv => (acc.1 ++ [uv], updateKey maxOp acc.2 s.day uv)
  else acc

/-- The month-`m` slice of the collection loop. -/
def uvCollect (samples : List AirSample) (m : ℕ) : List ℚ × List (ℕ × ℚ) :=
  samples.foldl (uvStep m) ([], [])

/-- Maximum of a nonempty list (Python `max`; junk `0` on `[]`). -/
def listMax (l : List ℚ) : ℚ := combineVals max l

/-- The month's valid `(day, uv)` samples, in order. -/
def monthVals (samples : List AirSample) (m : ℕ) : List (ℕ × ℚ) :=
  samples.filterMap (fun s =>
    if s.month = m ∧ s.month ∈ MONTHS then (to_float s.uv).map (fun q => (s.day, q))
    else none)

/-- The claim's formulation: one maximum per distinct calendar day. -/
def dailyMaxima (samples : List AirSample) (m : ℕ) : List ℚ :=
  ((monthVals samples m).map Prod.fst).dedup.map
    (fun d => listMax (((monthVals samples m).filter (fun s => s.1 = d)).map Prod.snd))

/-- UV statistics of `monthly_air_aggregate` (lines 205-207 and 211-212):
`uv_index_avg` is the rounded mean of the per-day maxima, `uv_index_max` the
rounded maximum over all samples, both clamped into `[UV_MIN, UV_MAX]`. -/
def uv_stats (samples : List AirSample) (m : ℕ) : Option ℚ × Option ℚ :=
  let col := uvCollect samples m
  let dayMaxValues := col.2.map Prod.snd
  let uvAvg := if dayMaxValues = [] then none else some (roundTo 1 (listMean dayMaxValues))
  let uvMax := if col.1 = [] then none else some (roundTo 1 (listMax col.1))
  (clamp_or_none uvAvg UV_MIN UV_MAX, clamp_or_none uvMax UV_MIN UV_MAX)

/-- The concrete example of the claim: day 1 has samples 4 and 5, day 2 has
samples 7 and 6.5, all in month 1. -/
def exUV : List AirSample :=
  [⟨1, 1, .num 4⟩, ⟨1, 1, .num 5⟩, ⟨1, 2, .num 7⟩, ⟨1, 2, .num (13/2)⟩]

theorem uvCollect_foldl (m : ℕ) (samples : List AirSample) (a1 : List ℚ)
    (a2 : List (ℕ × ℚ)) :
    samples.foldl (uvStep m) (a1, a2) =
      (a1 ++ (monthVals samples m).map Prod.snd,
       (monthVals samples m).foldl (groupStep maxOp) a2) := by
  induction samples generalizing a1 a2 with
  | nil => simp [monthVals]
  | cons s t ih =>
    rw [List.foldl_cons]
    by_cases hc : s.month = m ∧ s.month ∈ MONTHS
    · obtain ⟨hc1, hc2⟩ := hc
      have hm2 : m ∈ MONTHS := hc1 ▸ hc2
      cases huv : to_float s.uv with
      | none =>
        rw [show uvStep m (a1, a2) s = (a1, a2) from by simp [uvStep, hc1, hc2, hm2, huv]]
        rw [ih]
        rw [show monthVals (s :: t) m = monthVals t m from by
          simp [monthVals, hc1, hc2, hm2, huv]]
      | some uv =>
        rw [show uvStep m (a1, a2) s = (a1 ++ [uv], updateKey maxOp a2 s.day uv) from by
          simp [uvStep, hc1, hc2, hm2, huv]]
        rw [ih]
        rw [show monthVals (s :: t) m = (s.day, uv) :: monthVals t m from by
          simp [monthVals, hc1, hc2, hm2, huv]]
        simp [groupStep]
    · rw [show uvStep m (a1, a2) s = (a1, a2) from by simp [uvStep, hc]]
      rw [ih, show monthVals (s :: t) m = monthVals t m from by simp [monthVals, hc]]

theorem uvCollect_eq (samples : List AirSample) (m : ℕ) :
    uvCollect samples m =
      ((monthVals samples m).map Prod.snd, groupFold maxOp (monthVals samples m)) := by
  rw [uvCollect, uvCollect_foldl]
  rfl

theorem maxOp_eq_max (a b : ℚ) : maxOp a b = max a b := by
  rw [maxOp, max_def]
  rcases lt_trichotomy a b with h | h | h
  · rw [if_pos h, if_pos h.le]
  · subst h
    rw [if_neg (lt_irrefl a), if_pos le_rfl]
  · rw [if_neg (not_lt.2 h.le), if_neg (not_le.2 h)]

theorem foldl_maxOp (t : List ℚ) (v : ℚ) : t.foldl maxOp v = t.foldl max v := by
  induction t generalizing v with
  | nil => rfl
  | cons w u ih => rw [List.foldl_cons, List.foldl_cons, maxOp_eq_max, ih]

theorem combineVals_maxOp (vs : List ℚ) : combineVals maxOp vs = listMax vs := by
  cases vs with
  | nil => rfl
  | cons v t => exact foldl_maxOp t v

theorem dayMax_perm (samples : List AirSample) (m : ℕ) :
    List.Perm ((groupFold maxOp (monthVals samples m)).map Prod.snd)
      (dailyMaxima samples m) := by
  have h1 := groupFold_values_perm maxOp (monthVals samples m)
  rw [show ((monthVals samples m).map Prod.fst).dedup.map
      (fun k => combineD maxOp (monthVals samples m) k) = dailyMaxima samples m from by
    refine List.map_congr_left ?_
    intro d _
    rw [combineD, combineVals_maxOp]] at h1
  exact h1

/-- Claim C6: the UV monthly average of a month bucket is the rounded mean of
one maximum per calendar day, while the UV monthly maximum is the rounded
straight maximum over all valid samples of the bucket (each clamped into the
UV range); on the concrete example (day 1 maximum 5.0, day 2 maximum 7.0) the
average is 6.0 and the month maximum is 7.0. -/
theorem C6_uv_daily_peak_average (samples : List AirSample) (m : ℕ)
    (_hm : m ∈ MONTHS) :
    (uv_stats samples m).1 =
      clamp_or_none (if dailyMaxima samples m = [] then none
        else some (roundTo 1 (listMean (dailyMaxima samples m)))) UV_MIN UV_MAX ∧
    (uv_stats samples m).2 =
      clamp_or_none (if monthVals samples m = [] then none
        else some (roundTo 1 (listMax ((monthVals samples m).map Prod.snd)))) UV_MIN UV_MAX ∧
    uv_stats exUV 1 = (some 6, some 7) := by
  have hperm := dayMax_perm samples m
  refine ⟨?_, ?_, ?_⟩
  · show clamp_or_none (if ((uvCollect samples m).2.map Prod.snd) = [] then none
      else some (roundTo 1 (listMean ((uvCollect samples m).2.map Prod.snd))))
        UV_MIN UV_MAX = _
    rw [uvCollect_eq]
    by_cases hnil : dailyMaxima samples m = []
    · have h0 : (groupFold maxOp (monthVals samples m)).map Prod.snd = [] := by
        have := hperm.length_eq
        rw [hnil] at this
        exact List.length_eq_zero.1 (by simpa using this)
      rw [if_pos hnil, if_pos h0]
    · have h0 : (groupFold maxOp (monthVals samples m)).map Prod.snd ≠ [] := by
        intro hx
        have := hperm.length_eq
        rw [hx] at this
        exact hnil (List.length_eq_zero.1 (by simpa using this.symm))
      rw [if_neg hnil, if_neg h0]
      rw [show listMean ((groupFold maxOp (monthVals samples m)).map Prod.snd) =
          listMean (dailyMaxima samples m) from by
        rw [listMean, listMean, hperm.sum_eq, hperm.length_eq]]
  · show clamp_or_none (if ((uvCollect samples m).1) = [] then none
      else some (roundTo 1 (listMax (uvCollect samples m).1))) UV_MIN UV_MAX = _
    rw [uvCollect_eq]
    by_cases hnil : monthVals samples m = []
    · rw [if_pos hnil, if_pos (by rw [hnil]; rfl)]
    · rw [if_neg hnil, if_neg (by simpa [List.map_eq_nil_iff] using hnil)]
  · norm_num [uv_stats, uvCollect, uvStep, to_float, updateKey, maxOp, MONTHS,
      listMean, listMax, combineVals, clamp_or_none, UV_MIN, UV_MAX, exUV,
      roundTo, roundHalfEven]
    constructor <;> rw [if_neg (by simp)] <;> norm_num

/-- Witness for C6: the claim instantiated at the concrete example in
month 1. -/
theorem C6_uv_daily_peak_average_witness :
    (1 ∈ MONTHS) ∧ uv_stats exUV 1 = (some 6, some 7) :=
  ⟨by simp [MONTHS], (C6_uv_daily_peak_average exUV 1 (by simp [MONTHS])).2.2⟩


/-! ### Spatial candidate search (`fillManualMarineFromOpenMeteo.py`) -/

/-- Squared Euclidean offset distance — first sort key (line 260). -/
def d2 (p : ℚ × ℚ) : ℚ := p.1 * p.1 + p.2 * p.2

/-- Manhattan offset distance — second sort key (line 260). -/
def manhattan (p : ℚ × ℚ) : ℚ := |p.1| + |p.2|

/-- The order of `sorted(..., key=lambda item: (d2 item, manhattan item))`:
lexicographic comparison of the key tuples. -/
def keyLe (a b : ℚ × ℚ) : Prop :=
  d2 a < d2 b ∨ (d2 a = d2 b ∧ manhattan a ≤ manhattan b)

instance : DecidableRel keyLe := fun a b => by unfold keyLe; infer_instance

instance : IsTotal (ℚ × ℚ) keyLe :=
  ⟨by
    intro a b
    unfold keyLe
    rcases lt_trichotomy (d2 a) (d2 b) with h | h | h
    · exact Or.inl (Or.inl h)
    · rcases le_total (manhattan a) (manhattan b) with h2 | h2
      · exact Or.inl (Or.inr ⟨h, h2⟩)
      · exact Or.inr (Or.inr ⟨h.symm, h2⟩)
    · exact Or.inr (Or.inl h)⟩

instance : IsTrans (ℚ × ℚ) keyLe :=
  ⟨by
    intro a b c hab hbc
    unfold keyLe at hab hbc ⊢
    rcases hab with h1 | ⟨h1, h1m⟩ <;> rcases hbc with h2 | ⟨h2, h2m⟩
    · exact Or.inl (h1.trans h2)
    · exact Or.inl (h2 ▸ h1)
    · exact Or.inl (h1 ▸ h2)
    · exact Or.inr ⟨h1.trans h2, h1m.trans h2m⟩⟩

/-- Python `range(-rings, rings + 1)`. -/
def intRange (rings : ℤ) : List ℤ :=
  (List.range (2 * rings + 1).toNat).map (fun i => -rings + (i : ℤ))

/-- The grid-loop body of `build_offset_candidates` (lines 245-255): skip the
origin cell, round each offset to 6 decimals, and append offsets not yet in
the `seen` set (second component) to the candidate list (first component). -/
def addOffset (step : ℚ) (acc : List (ℚ × ℚ) × List (ℚ × ℚ)) (p : ℤ × ℤ) :
    List (ℚ × ℚ) × List (ℚ × ℚ) :=
  if p.1 = 0 ∧ p.2 = 0 then acc
  else
    if (roundTo 6 (p.1 * step), roundTo 6 (p.2 * step)) ∈ acc.2 then acc
    else (acc.1 ++ [(roundTo 6 (p.1 * step), roundTo 6 (p.2 * step))],
      (roundTo 6 (p.1 * step), roundTo 6 (p.2 * step)) :: acc.2)

/-- `build_offset_candidates` (lines 240-264): a square lattice of offsets
out to `rings = max(1, round(max_offset/step))` steps, starting from the
seeded origin `(0.0, 0.0)`, deduplicated via the `seen` set, the tail sorted
ascending by (squared distance, Manhattan distance) — Python's stable
`sorted` modelled by insertion sort — and capped at `max(2, max_candidates)`
entries. -/
def build_offset_candidates (maxOffsetDeg offsetStepDeg : ℚ) (maxCandidates : ℤ) :
    List (ℚ × ℚ) :=
  let rings : ℤ := max 1 (roundHalfEven (maxOffsetDeg / offsetStepDeg))
  let ixs := intRange rings
  let pairs := ixs.flatMap (fun ix => ixs.map (fun iy => (ix, iy)))
  let st := pairs.foldl (addOffset offsetStepDeg)
    ([((0 : ℚ), (0 : ℚ))], [((0 : ℚ), (0 : ℚ))])
  let sortedCandidates := st.1.take 1 ++ List.insertionSort keyLe (st.1.drop 1)
  sortedCandidates.take (max 2 maxCandidates).toNat

theorem addOffset_foldl_inv (step : ℚ) (ps : List (ℤ × ℤ))
    (acc : List (ℚ × ℚ) × List (ℚ × ℚ)) (hnd : acc.1.Nodup)
    (hiff : ∀ x, x ∈ acc.1 ↔ x ∈ acc.2) :
    (ps.foldl (addOffset step) acc).1.Nodup ∧
    (∀ x, x ∈ (ps.foldl (addOffset step) acc).1 ↔ x ∈ (ps.foldl (addOffset step) acc).2) ∧
    ∃ tl, (ps.foldl (addOffset step) acc).1 = acc.1 ++ tl := by
  induction ps generalizing acc with
  | nil => exact ⟨hnd, hiff, ⟨[], by simp⟩⟩
  | cons p pt ih =>
    rw [List.foldl_cons]
    by_cases h0 : p.1 = 0 ∧ p.2 = 0
    · rw [show addOffset step acc p = acc from by simp [addOffset, h0]]
      exact ih acc hnd hiff
    · by_cases hmem : (roundTo 6 (p.1 * step), roundTo 6 (p.2 * step)) ∈ acc.2
      · rw [show addOffset step acc p = acc from by simp [addOffset, h0, hmem]]
        exact ih acc hnd hiff
      · rw [show addOffset step acc p =
          (acc.1 ++ [(roundTo 6 (p.1 * step), roundTo 6 (p.2 * step))],
            (roundTo 6 (p.1 * step), roundTo 6 (p.2 * step)) :: acc.2) from by
          simp [addOffset, h0, hmem]]
        have hnotin : (roundTo 6 (p.1 * step), roundTo 6 (p.2 * step)) ∉ acc.1 :=
          fun hx => hmem ((hiff _).1 hx)
        obtain ⟨hnd2, hiff2, tl, htl⟩ := ih
          (acc.1 ++ [(roundTo 6 (p.1 * step), roundTo 6 (p.2 * step))],
            (roundTo 6 (p.1 * step), roundTo 6 (p.2 * step)) :: acc.2)
          (by simp [List.nodup_append, hnd, hnotin])
          (by
            intro x
            simp only [List.mem_append, List.mem_singleton, List.mem_cons]
            rw [hiff x]
            tauto)
        exact ⟨hnd2, hiff2,
          ⟨[(roundTo 6 (p.1 * step), roundTo 6 (p.2 * step))] ++ tl, by
            rw [htl, List.append_assoc]⟩⟩

theorem keyLe_origin (b : ℚ × ℚ) : keyLe (0, 0) b := by
  unfold keyLe
  have hd : d2 ((0 : ℚ), (0 : ℚ)) = 0 := by simp [d2]
  have hb : 0 ≤ d2 b := add_nonneg (mul_self_nonneg _) (mul_self_nonneg _)
  rcases lt_or_eq_of_le hb with h | h
  · exact Or.inl (by rw [hd]; exact h)
  · refine Or.inr ⟨by rw [hd, h], ?_⟩
    have : manhattan ((0 : ℚ), (0 : ℚ)) = 0 := by simp [manhattan]
    rw [this]
    exact add_nonneg (abs_nonneg _) (abs_nonneg _)

/-- Claim C4 (amended): for every radius, step and cap, the candidate list
starts at the origin offset, has no duplicate offsets, is sorted ascending by
(squared Euclidean distance, Manhattan distance) — so adjacent offsets are in
non-decreasing distance from the origin — and its length never exceeds
`max(2, cap)`; in particular it never exceeds the cap whenever the cap is at
least 2 (the program floors the cap option at 8). -/
theorem C4_offset_candidates_shape (maxOff step : ℚ) (cap : ℤ) :
    (build_offset_candidates maxOff step cap).head? = some (0, 0) ∧
    (build_offset_candidates maxOff step cap).Nodup ∧
    (build_offset_candidates maxOff step cap).Sorted keyLe ∧
    (build_offset_candidates maxOff step cap).Chain' (fun a b => d2 a ≤ d2 b) ∧
    (build_offset_candidates maxOff step cap).length ≤ (max 2 cap).toNat ∧
    (2 ≤ cap → (build_offset_candidates maxOff step cap).length ≤ cap.toNat) := by
  obtain ⟨hnd, hiff, tl, htl⟩ := addOffset_foldl_inv step
    ((intRange (max 1 (roundHalfEven (maxOff / step)))).flatMap
      (fun ix => (intRange (max 1 (roundHalfEven (maxOff / step)))).map (fun iy => (ix, iy))))
    ([((0 : ℚ), (0 : ℚ))], [((0 : ℚ), (0 : ℚ))]) (by simp) (by simp)
  have hL : build_offset_candidates maxOff step cap =
      (((0 : ℚ), (0 : ℚ)) :: List.insertionSort keyLe tl).take (max 2 cap).toNat := by
    simp only [build_offset_candidates]
    rw [htl]
    rfl
  have hnd2 : (((0 : ℚ), (0 : ℚ)) :: List.insertionSort keyLe tl).Nodup := by
    rw [htl] at hnd
    have h1 : (((0 : ℚ), (0 : ℚ)) :: tl).Nodup := by simpa using hnd
    rw [List.nodup_cons] at h1 ⊢
    exact ⟨fun hx => h1.1 ((List.perm_insertionSort keyLe tl).subset hx),
      (List.perm_insertionSort keyLe tl).nodup_iff.2 h1.2⟩
  have hsorted : (((0 : ℚ), (0 : ℚ)) :: List.insertionSort keyLe tl).Sorted keyLe :=
    List.sorted_cons.2 ⟨fun b _ => keyLe_origin b, List.sorted_insertionSort keyLe tl⟩
  obtain ⟨k, hk⟩ : ∃ k, (max 2 cap).toNat = k + 1 := by
    have h2 : (2 : ℤ) ≤ max 2 cap := le_max_left 2 cap
    exact ⟨(max 2 cap).toNat - 1, by omega⟩
  refine ⟨?_, ?_, ?_, ?_, ?_, ?_⟩
  · rw [hL, hk, List.take_succ_cons]
    rfl
  · rw [hL]
    exact hnd2.sublist (List.take_sublist _ _)
  · rw [hL]
    exact hsorted.sublist (List.take_sublist _ _)
  · rw [hL]
    refine List.Pairwise.chain' ?_
    refine List.Pairwise.imp ?_ (hsorted.sublist (List.take_sublist _ _))
    intro a b hab
    rcases hab with h | ⟨h, _⟩
    · exact h.le
    · exact h.le
  · rw [hL]
    exact List.length_take_le _ _
  · intro hcap
    rw [hL, max_eq_right hcap]
    exact List.length_take_le _ _


/-- Counterexample to claim C4 as stated: with radius 0.2, step 0.2 and cap 1
the produced list has `max(2, 1) = 2` entries, exceeding the cap. -/
theorem C4_offset_candidates_cap_counterexample :
    ¬((build_offset_candidates (1/5) (1/5) 1).length ≤ (1 : ℤ).toNat) := by
  have hr : max 1 (roundHalfEven ((1/5 : ℚ) / (1/5))) = 1 := by
    norm_num [roundHalfEven]
  have hpairs : (intRange 1).flatMap (fun ix => (intRange 1).map (fun iy => (ix, iy))) =
      [((-1 : ℤ), (-1 : ℤ)), (-1, 0), (-1, 1), (0, -1), (0, 0), (0, 1),
        (1, -1), (1, 0), (1, 1)] := by
    decide
  have hstep1 : addOffset (1/5) ([((0 : ℚ), (0 : ℚ))], [((0 : ℚ), (0 : ℚ))])
      ((-1 : ℤ), (-1 : ℤ)) =
      ([((0 : ℚ), (0 : ℚ)), ((-1/5 : ℚ), (-1/5 : ℚ))],
        [((-1/5 : ℚ), (-1/5 : ℚ)), ((0 : ℚ), (0 : ℚ))]) := by
    norm_num [addOffset, roundTo, roundHalfEven, Prod.ext_iff]
  obtain ⟨hnd, hiff, tl, htl⟩ := addOffset_foldl_inv (1/5)
      [((-1 : ℤ), (0 : ℤ)), (-1, 1), (0, -1), (0, 0), (0, 1), (1, -1), (1, 0), (1, 1)]
      ([((0 : ℚ), (0 : ℚ)), ((-1/5 : ℚ), (-1/5 : ℚ))],
        [((-1/5 : ℚ), (-1/5 : ℚ)), ((0 : ℚ), (0 : ℚ))])
      (by norm_num [Prod.ext_iff])
      (by
        intro x
        simp only [List.mem_cons, List.not_mem_nil, or_false]
        tauto)
  have hfold : (List.foldl (addOffset (1/5)) ([((0 : ℚ), (0 : ℚ))], [((0 : ℚ), (0 : ℚ))])
      ((intRange 1).flatMap (fun ix => (intRange 1).map (fun iy => (ix, iy))))).1 =
      [((0 : ℚ), (0 : ℚ)), ((-1/5 : ℚ), (-1/5 : ℚ))] ++ tl := by
    rw [hpairs, List.foldl_cons, hstep1]
    exact htl
  have hL : build_offset_candidates (1/5) (1/5) 1 =
      (((0 : ℚ), (0 : ℚ)) :: List.insertionSort keyLe (((-1/5 : ℚ), (-1/5 : ℚ)) :: tl)).take
        (max 2 (1 : ℤ)).toNat := by
    simp only [build_offset_candidates, hr]
    rw [hfold]
    rfl
  have hlen : (List.insertionSort keyLe (((-1/5 : ℚ), (-1/5 : ℚ)) :: tl)).length =
      (((-1/5 : ℚ), (-1/5 : ℚ)) :: tl).length :=
    (List.perm_insertionSort keyLe _).length_eq
  rw [hL, List.length_take, List.length_cons, hlen, List.length_cons]
  have h2 : (max 2 (1 : ℤ)).toNat = 2 := by decide
  rw [h2]
  simp only [Int.toNat_one]
  omega

end NWM
